import Mathlib

/-
Shallow embedding of the postfixadmin-to-Modoboa migration command
(modoboa/tools/pfxadmin_migrate/management/commands/migrate_from_postfixadmin.py).

The legacy (postfixadmin) database is a read-only collection of record lists
(`PfDatabase`); the target (Modoboa) database is a mutable state threaded
through the migration steps (`TargetState`).  Django ORM `.get()` calls are
modelled by `getUnique`, which distinguishes the `DoesNotExist` and
`MultipleObjectsReturned` outcomes; `try/except DoesNotExist` blocks become
matches on that result, and uncaught ORM exceptions become `Except.error`
values that propagate through the `Except PyError` monad, mirroring Python
exception propagation.  Database-connection selection (`using(...)`) is
modelled by passing the legacy database and target state explicitly.
-/

deriving instance DecidableEq for Except

namespace PfxMigrate

/-! ## Legacy (postfixadmin) records -/

/-- Legacy `domain` table row (fields used by the script). -/
structure PfDomain where
  domain : String
  active : Bool
  maxquota : Nat
  created : Nat
deriving Repr, DecidableEq

/-- Legacy `mailbox` table row (fields used by the script). -/
structure PfMailbox where
  username : String
  name : String
  password : String
  local_part : String
  maildir : String
  domain : String
  active : Bool
  quota : Nat
  created : Nat
deriving Repr, DecidableEq

/-- Legacy `alias` table row (fields used by the script). -/
structure PfAlias where
  address : String
  goto : String
  domain : String
  active : Bool
  created : Nat
deriving Repr, DecidableEq

/-- Legacy `alias_domain` table row (fields used by the script). -/
structure PfAliasDomain where
  alias_domain : String
  target_domain : String
  active : Bool
  created : Nat
deriving Repr, DecidableEq

/-- Legacy `admin` table row (fields used by the script). -/
structure PfAdmin where
  username : String
  password : String
  active : Bool
  modified : Nat
deriving Repr, DecidableEq

/-- Legacy `domain_admins` table row (fields used by the script). -/
structure PfDomainAdmins where
  username : String
  domain : String
deriving Repr, DecidableEq

/-- The whole legacy database read by the migration. -/
structure PfDatabase where
  domains : List PfDomain
  mailboxes : List PfMailbox
  aliases : List PfAlias
  alias_domains : List PfAliasDomain
  admins : List PfAdmin
  domain_admins : List PfDomainAdmins
deriving Repr, DecidableEq

/-! ## Target (Modoboa) records -/

/-- Target `core.User` record (fields the script sets or reads).
`role` records the `set_role` call; `groups` the `user.groups` m2m set. -/
structure User where
  username : String
  first_name : String
  last_name : String
  email : String
  is_active : Bool
  date_joined : Nat
  password : String
  is_superuser : Bool
  groups : List String
  role : Option String
  dates : Nat
deriving Repr, DecidableEq

/-- Target `admin.Mailbox` record.  `user` holds the username of the linked
`User` (the ORM link `new_mb.user = new_user`); `quota_override` records the
`override_rules=True` argument passed to `set_quota`. -/
structure Mailbox where
  user : String
  address : String
  domain : String
  quota : Nat
  quota_override : Bool
  dates : Nat
deriving Repr, DecidableEq

/-- Target `admin.Alias` record, saved together with its internal recipient
mailboxes (`int_rcpts`) and external recipient strings (`ext_rcpts`). -/
structure TAlias where
  address : String
  domain : String
  enabled : Bool
  int_rcpts : List Mailbox
  ext_rcpts : List String
  dates : Nat
deriving Repr, DecidableEq

/-- Target `admin.Domain` record. -/
structure TDomain where
  name : String
  enabled : Bool
  quota : Nat
  dates : Nat
deriving Repr, DecidableEq

/-- Target `admin.DomainAlias` record (`target` holds the resolved target
domain name). -/
structure DomainAlias where
  name : String
  target : String
  enabled : Bool
  dates : Nat
deriving Repr, DecidableEq

/-- The target database state threaded through the migration.  `groups` holds
the names of the pre-existing auth groups; `dadmins` records the
`domain.add_admin(user)` registrations as (domain name, username) pairs;
`renames` records the `rename_dir` requests (old paths); `output` records the
progress/warning lines printed to standard output. -/
structure TargetState where
  users : List User
  mailboxes : List Mailbox
  aliases : List TAlias
  domains : List TDomain
  domain_aliases : List DomainAlias
  groups : List String
  dadmins : List (String × String)
  renames : List String
  output : List String
deriving Repr, DecidableEq

/-! ## ORM and Python primitives -/

/-- Outcome of a Django ORM `.get()` that is not a single object. -/
inductive GetFail where
  | notFound
  | multiple
deriving Repr, DecidableEq

/-- An uncaught Python exception aborting the run. -/
inductive PyError where
  | doesNotExist
  | multipleObjectsReturned
  | typeError
deriving Repr, DecidableEq

/-- Django ORM `.get()`: exactly one matching row, else `DoesNotExist` or
`MultipleObjectsReturned`. -/
def getUnique {α : Type} (l : List α) (p : α → Bool) : Except GetFail α :=
  match l.filter p with
  | [] => .error .notFound
  | [x] => .ok x
  | _ :: _ :: _ => .error .multiple

/-- A `.get()` wrapped in `try/except DoesNotExist`: `DoesNotExist` is caught
(yielding `none`), `MultipleObjectsReturned` propagates. -/
def getOk {α : Type} (e : Except GetFail α) : Except PyError (Option α) :=
  match e with
  | .ok x => .ok (some x)
  | .error .notFound => .ok none
  | .error .multiple => .error .multipleObjectsReturned

/-- A bare `.get()` with no `try/except`: both failures propagate as uncaught
exceptions. -/
def raiseGet {α : Type} (e : Except GetFail α) : Except PyError α :=
  match e with
  | .ok x => .ok x
  | .error .notFound => .error .doesNotExist
  | .error .multiple => .error .multipleObjectsReturned

/-- Python 2 `%` formatting for a format string containing exactly two `%s`
placeholders (`p0` ++ `%s` ++ `p1` ++ `%s` ++ `p2`): it needs two argument
values, otherwise it raises `TypeError: not enough arguments for format
string`. -/
def pyFormatSS (p0 p1 p2 : String) (args : List String) : Except PyError String :=
  match args with
  | [x, y] => .ok (p0 ++ x ++ p1 ++ y ++ p2)
  | _ => .error .typeError

/-- Python `s.split(sep)` for a single-character separator, on the character
list of the string (structural recursion; `"".split(sep)` yields `[""]`). -/
def pySplitAux (sep : Char) (acc : List Char) : List Char → List String
  | [] => [String.mk acc.reverse]
  | c :: cs =>
    if c == sep then String.mk acc.reverse :: pySplitAux sep [] cs
    else pySplitAux sep (c :: acc) cs

/-- Python `s.split(sep)` for a single-character separator. -/
def pySplit (s : String) (sep : Char) : List String :=
  pySplitAux sep [] s.toList

/-- Python `s.partition(sep)[0]` and `s.partition(sep)[2]` for the single
character separator `" "`: the part before the first space and the part after
it (empty when there is no space). -/
def pyPartitionSpace (s : String) : String × String :=
  match pySplit s ' ' with
  | [] => ("", "")
  | x :: rest => (x, String.intercalate " " rest)

/-- Modelled from the spec: the email-address-splitting utility
`split_mailbox` from `modoboa.lib.emailutils`, which is not part of this
repository's sources.  Per the spec it extracts the local part of an address
and the remainder (the domain part): an address containing the separator is
split at its last occurrence (so the local part may be empty), and an address
without a separator yields no remainder. -/
def split_mailbox (address : String) : Option String × Option String :=
  let cs := address.toList
  if cs.contains '@' then
    let rcs := cs.reverse
    (some (String.mk ((rcs.dropWhile (fun c => c != '@')).drop 1).reverse),
     some (String.mk ((rcs.takeWhile (fun c => c != '@')).reverse)))
  else
    (some address, none)

/-- Idempotent insertion, modelling Django m2m `add` and (modelled from the
spec) `Domain.add_admin`: registering an already-present member is a no-op. -/
def pushNew {α : Type} [DecidableEq α] (l : List α) (x : α) : List α :=
  if x ∈ l then l else l ++ [x]

/-! ## The migration command -/

/-- The option values relevant to the migration logic.  The connection-name
options `--from` and `--to` select which databases are used; they are modelled
by the explicit `PfDatabase` and `TargetState` arguments. -/
structure Options where
  rename_dirs : Bool
  mboxes_path : Option String
  passwords_scheme : String
deriving Repr, DecidableEq

/-- The body of the loop of `_migrate_domain_aliases`, processing one legacy
alias-domain row.  In the `DoesNotExist` branch the source prints a warning
whose format string holds two `%s` placeholders but applies `%` to the single
value `old_da.target_domain`, so reaching that branch raises `TypeError`
(modelled by `pyFormatSS`). -/
def migrateOneDomainAlias (st : TargetState) (old_da : PfAliasDomain) :
    Except PyError TargetState :=
  match getOk (getUnique st.domains (fun d => d.name == old_da.target_domain)) with
  | .error e => .error e
  | .ok (some target_domain) =>
      let new_da : DomainAlias :=
        { name := old_da.alias_domain
          target := target_domain.name
          enabled := old_da.active
          dates := old_da.created }
      .ok { st with domain_aliases := st.domain_aliases ++ [new_da] }
  | .ok none => do
      let w ← pyFormatSS "Warning: target domain "
        " does not exists, not creating alias domain " "" [old_da.target_domain]
      .ok { st with output := st.output ++ [w] }

/-- The loop of `_migrate_domain_aliases` over the alias-domain rows that
target the given domain. -/
def migrateDomainAliases (db : PfDatabase) (domain : TDomain) (st : TargetState) :
    Except PyError TargetState :=
  let st := { st with output := st.output ++ ["\tMigrating domain aliases"] }
  (db.alias_domains.filter (fun ad => ad.target_domain == domain.name)).foldlM
    migrateOneDomainAlias st

/-- The recipient-partitioning loop of `_migrate_mailbox_aliases`: each
comma-separated recipient is looked up as an existing target `Mailbox` by its
user's username; a found mailbox is appended to the internal list, a
`DoesNotExist` lookup appends the bare string to the external list, and a
`MultipleObjectsReturned` propagates. -/
def partitionStep (mbs : List Mailbox) (acc : List Mailbox × List String)
    (goto : String) : Except PyError (List Mailbox × List String) :=
  match getOk (getUnique mbs (fun mb => mb.user == goto)) with
  | .error e => .error e
  | .ok (some mb) => .ok (acc.1 ++ [mb], acc.2)
  | .ok none => .ok (acc.1, acc.2 ++ [goto])

/-- The whole recipient loop of `_migrate_mailbox_aliases`, starting from the
two empty lists. -/
def partitionRecipients (mbs : List Mailbox) (gotos : List String) :
    Except PyError (List Mailbox × List String) :=
  gotos.foldlM (partitionStep mbs) (([], []) : List Mailbox × List String)

/-- The address given to the new target alias in `_migrate_mailbox_aliases`:
`none` models the warn-and-skip outcome (no usable local part, no usable
remainder), a usable local part is kept, and an unusable local part with a
usable remainder falls back to the wildcard token. -/
def aliasNewAddress (address : String) : Option String :=
  let lp := (split_mailbox address).1
  let tmp := (split_mailbox address).2
  if lp == none || lp == some "" then
    if tmp == none || tmp == some "" then none
    else some "*"
  else lp

/-- The body of the loop of `_migrate_mailbox_aliases`, processing one legacy
alias row. -/
def migrateOneAlias (domain : TDomain) (st : TargetState) (old_al : PfAlias) :
    Except PyError TargetState :=
  if old_al.address == old_al.goto then .ok st
  else
    match aliasNewAddress old_al.address with
    | none =>
        .ok { st with output := st.output ++
          ["Warning: skipping alias " ++ old_al.address ++
           " (cannot retrieve local part). You will need to recreate it manually."] }
    | some addr => do
        let p ← partitionRecipients st.mailboxes (pySplit old_al.goto ',')
        let new_al : TAlias :=
          { address := addr
            domain := domain.name
            enabled := old_al.active
            int_rcpts := p.1
            ext_rcpts := p.2
            dates := old_al.created }
        .ok { st with aliases := st.aliases ++ [new_al] }

/-- The loop of `_migrate_mailbox_aliases` over a list of legacy alias rows. -/
def migrateAliasList (domain : TDomain) (l : List PfAlias) (st : TargetState) :
    Except PyError TargetState :=
  l.foldlM (migrateOneAlias domain) st

/-- `_migrate_mailbox_aliases`: migrate the legacy alias rows of a domain. -/
def migrateMailboxAliases (db : PfDatabase) (domain : TDomain) (st : TargetState) :
    Except PyError TargetState :=
  let st := { st with output := st.output ++ ["\tMigrating mailbox aliases"] }
  migrateAliasList domain (db.aliases.filter (fun a => a.domain == domain.name)) st

/-- The target `User` built for a legacy mailbox in `_migrate_mailboxes`:
names come from `partition(' ')` of the display name, the password is the
bracketed upper-cased scheme label concatenated with the unmodified legacy
hash, and `set_role("SimpleUsers")` assigns the simple-user role. -/
def mkUser (passwords_scheme : String) (old_mb : PfMailbox) : User :=
  { username := old_mb.username
    first_name := (pyPartitionSpace old_mb.name).1
    last_name := (pyPartitionSpace old_mb.name).2
    email := old_mb.username
    is_active := old_mb.active
    date_joined := old_mb.created
    password := "\x7b" ++ passwords_scheme.toUpper ++ "\x7d" ++ old_mb.password
    is_superuser := false
    groups := []
    role := some "SimpleUsers"
    dates := old_mb.created }

/-- The target `Mailbox` built for a legacy mailbox in `_migrate_mailboxes`:
linked to the new user, address set to the legacy local part, quota set by
`set_quota(old_mb.quota / 1024000, override_rules=True)` (Python 2 integer
division). -/
def mkMailbox (domain : TDomain) (old_mb : PfMailbox) : Mailbox :=
  { user := old_mb.username
    address := old_mb.local_part
    domain := domain.name
    quota := old_mb.quota / 1024000
    quota_override := true
    dates := old_mb.created }

/-- The body of the loop of `_migrate_mailboxes`, creating and saving one
user and one linked mailbox for one legacy mailbox row, and recording a
directory rename request when `--rename-dirs` is set. -/
def migrateOneMailbox (domain : TDomain) (opts : Options) (st : TargetState)
    (old_mb : PfMailbox) : TargetState :=
  let st := { st with
    users := st.users ++ [mkUser opts.passwords_scheme old_mb]
    mailboxes := st.mailboxes ++ [mkMailbox domain old_mb] }
  if opts.rename_dirs then
    { st with renames := st.renames ++
      [opts.mboxes_path.getD "" ++ "/" ++ domain.name ++ "/" ++ old_mb.maildir] }
  else st

/-- `_migrate_mailboxes`: migrate the legacy mailboxes of a domain. -/
def migrateMailboxes (db : PfDatabase) (domain : TDomain) (opts : Options)
    (st : TargetState) : TargetState :=
  let st := { st with output := st.output ++ ["\tMigrating mailboxes"] }
  (db.mailboxes.filter (fun mb => mb.domain == domain.name)).foldl
    (migrateOneMailbox domain opts) st

/-- The target `Domain` built from a legacy domain row in `_migrate_domain`. -/
def mkDomain (old_dom : PfDomain) : TDomain :=
  { name := old_dom.domain
    enabled := old_dom.active
    quota := old_dom.maxquota
    dates := old_dom.created }

/-- `_migrate_domain`: create the target domain, then migrate its mailboxes,
mailbox aliases and domain aliases. -/
def migrateDomain (db : PfDatabase) (old_dom : PfDomain) (opts : Options)
    (st : TargetState) : Except PyError TargetState := do
  let st := { st with output := st.output ++ ["Migrating domain " ++ old_dom.domain] }
  let newdom := mkDomain old_dom
  let st := { st with domains := st.domains ++ [newdom] }
  let st := migrateMailboxes db newdom opts st
  let st ← migrateMailboxAliases db newdom st
  migrateDomainAliases db newdom st

/-- The fresh target `User` created in `_migrate_admins` when no user with the
admin's username exists yet: the legacy password is copied verbatim (no scheme
tag) and the remaining fields keep their model defaults. -/
def freshAdminUser (old_admin : PfAdmin) : User :=
  { username := old_admin.username
    first_name := ""
    last_name := ""
    email := old_admin.username
    is_active := old_admin.active
    date_joined := 0
    password := old_admin.password
    is_superuser := false
    groups := []
    role := none
    dates := 0 }

/-- The credential query of `_migrate_admins`:
`Q(username=old_admin.username) & (Q(domain="ALL") | Q(domain=domname))`,
where `domname` is the domain part of the admin's username. -/
def credsQuery (old_admin : PfAdmin) (r : PfDomainAdmins) : Bool :=
  r.username == old_admin.username &&
    (r.domain == "ALL" || some r.domain == (split_mailbox old_admin.username).2)

/-- `user.save(using=...)` on an already-stored user: the stored row is
replaced by the updated object. -/
def saveUser (st : TargetState) (user : User) : TargetState :=
  { st with users := st.users.map (fun u => if u.username == user.username then user else u) }

/-- The tail of the admin loop body once the credential row, the target
domain and the (possibly missing) existing user are resolved: create and save
the fresh user when absent, set the join date from the legacy modification
time, then either mark the user superuser (`"ALL"` scope) or add the
domain-admin group and register the user as admin of the resolved domain, and
save. -/
def adminApplyPrivilege (st : TargetState) (creds : PfDomainAdmins) (domain : TDomain)
    (old_admin : PfAdmin) (user? : Option User) : TargetState :=
  let user := user?.getD (freshAdminUser old_admin)
  let st := match user? with
    | some _ => st
    | none => { st with users := st.users ++ [freshAdminUser old_admin] }
  let user := { user with date_joined := old_admin.modified }
  let (user, st) :=
    if creds.domain == "ALL" then
      ({ user with is_superuser := true }, st)
    else
      ({ user with groups := pushNew user.groups "DomainAdmins" },
       { st with dadmins := pushNew st.dadmins (domain.name, old_admin.username) })
  saveUser st user

/-- The body of the loop of `_migrate_admins`, processing one legacy admin:
credential lookup (skip on `DoesNotExist`), target-domain lookup (skip on
`DoesNotExist`), user lookup, then `adminApplyPrivilege`. -/
def processAdmin (db : PfDatabase) (st : TargetState) (old_admin : PfAdmin) :
    Except PyError TargetState := do
  let domname := (split_mailbox old_admin.username).2
  let creds? ← getOk (getUnique db.domain_admins (credsQuery old_admin))
  match creds? with
  | none =>
      pure { st with output := st.output ++
        ["Warning: skipping useless admin " ++ old_admin.username] }
  | some creds => do
    let domain? ← getOk (getUnique st.domains (fun d => some d.name == domname))
    match domain? with
    | none =>
        pure { st with output := st.output ++
          ["Warning: skipping domain admin " ++ old_admin.username ++ ", domain not found"] }
    | some domain => do
      let user? ← getOk (getUnique st.users (fun u => u.username == old_admin.username))
      pure (adminApplyPrivilege st creds domain old_admin user?)

/-- `_migrate_admins`: fetch the fixed `DomainAdmins` group (an uncaught
lookup), then process every legacy admin row. -/
def migrateAdmins (db : PfDatabase) (st : TargetState) : Except PyError TargetState := do
  let st := { st with output := st.output ++ ["Migrating administrators"] }
  let _dagroup ← raiseGet (getUnique st.groups (fun g => g == "DomainAdmins"))
  db.admins.foldlM (processAdmin db) st

/-- The body of the domain loop of `_do_migration`: skip the sentinel
`"ALL"`, skip a domain found in the `alias_domain` table (the `DoesNotExist`
outcome of that lookup is the continue signal), and otherwise migrate the
domain and then re-run the administrator migration. -/
def migrateDomainStep (db : PfDatabase) (opts : Options) (st : TargetState)
    (pf_domain : PfDomain) : Except PyError TargetState :=
  if pf_domain.domain == "ALL" then pure st
  else
    match getOk (getUnique db.alias_domains
        (fun ad => ad.alias_domain == pf_domain.domain)) with
    | .error e => .error e
    | .ok (some _) =>
        pure { st with output := st.output ++
          ["Info: " ++ pf_domain.domain ++ " looks like an alias domain, skipping it"] }
    | .ok none => do
        let st ← migrateDomain db pf_domain opts st
        migrateAdmins db st

/-- `_do_migration`: fetch the creator user (an uncaught lookup), then run
`migrateDomainStep` over every legacy domain row. -/
def doMigration (db : PfDatabase) (opts : Options) (st : TargetState) :
    Except PyError TargetState := do
  let _creator ← raiseGet (getUnique st.users (fun u => u.username == "admin"))
  db.domains.foldlM (migrateDomainStep db opts) st

/-- Outcome of running the command: an explicit `sys.exit`, a completed run,
or a run aborted by an uncaught exception (the wrapping transaction discards
the database writes, so no final state is reported). -/
inductive RunResult where
  | exited (code : Nat) (msg : String)
  | completed (st : TargetState)
  | uncaught (e : PyError)
deriving Repr, DecidableEq

/-- `handle`: the command entry point.  `sys.exit(1)` when `--rename-dirs` is
given without `--mboxes-path`, otherwise the migration runs inside the
wrapping transaction. -/
def handle (opts : Options) (db : PfDatabase) (st : TargetState) : RunResult :=
  if opts.rename_dirs && opts.mboxes_path.isNone then
    .exited 1 "Error: you must provide the --mboxes-path option"
  else
    match doMigration db opts st with
    | .ok st => .completed st
    | .error e => .uncaught e

/-- The process exit status: 0 on completion, the given code for an explicit
`sys.exit`, and 1 for a run aborted by an uncaught exception. -/
def exitCode : RunResult → Nat
  | .completed _ => 0
  | .exited c _ => c
  | .uncaught _ => 1

/-- Whether an `Except` computation succeeded. -/
def isOk {ε α : Type} : Except ε α → Bool
  | .ok _ => true
  | .error _ => false

/-! ## Observables used to state the claims -/

/-- A legacy domain row survives the filtering of `_do_migration`: it is not
the sentinel `"ALL"` and its name is not registered in the legacy
`alias_domain` table. -/
def survivingDomain (db : PfDatabase) (d : PfDomain) : Bool :=
  d.domain != "ALL" && !(db.alias_domains.any (fun ad => ad.alias_domain == d.domain))

/-- A recipient string resolves to an existing target mailbox when some stored
mailbox is linked to a user with that username. -/
def resolvesToMailbox (mbs : List Mailbox) (g : String) : Bool :=
  mbs.any (fun mb => mb.user == g)

/-- The group memberships of the stored user with the given username before an
update (empty when the user does not exist yet). -/
def priorGroups (st : TargetState) (uname : String) : List String :=
  match getUnique st.users (fun u => u.username == uname) with
  | .ok u => u.groups
  | .error _ => []

/-- The superuser flag of the stored user with the given username before an
update (false when the user does not exist yet, matching the flag of a freshly
created user). -/
def priorSuperuser (st : TargetState) (uname : String) : Bool :=
  match getUnique st.users (fun u => u.username == uname) with
  | .ok u => u.is_superuser
  | .error _ => false

/-! ## Concrete fixtures used by witnesses and counterexamples -/

/-- A pre-existing creator account in the target database. -/
def adminUser : User :=
  { username := "admin"
    first_name := ""
    last_name := ""
    email := "admin@target"
    is_active := true
    date_joined := 0
    password := "secret"
    is_superuser := true
    groups := []
    role := none
    dates := 0 }

/-- An empty target state. -/
def stEmpty : TargetState :=
  { users := []
    mailboxes := []
    aliases := []
    domains := []
    domain_aliases := []
    groups := []
    dadmins := []
    renames := []
    output := [] }

/-- A target state holding only the creator account and the fixed
`DomainAdmins` group. -/
def stBase : TargetState :=
  { stEmpty with users := [adminUser], groups := ["DomainAdmins"] }

/-- An empty legacy database. -/
def dbEmpty : PfDatabase :=
  { domains := []
    mailboxes := []
    aliases := []
    alias_domains := []
    admins := []
    domain_admins := [] }

/-- Default option values (`--rename-dirs` off, scheme `crypt`). -/
def optsDefault : Options :=
  { rename_dirs := false, mboxes_path := none, passwords_scheme := "crypt" }

/-- A legacy domain row matching the end-to-end example of the spec. -/
def exDomain : PfDomain :=
  { domain := "example.com", active := true, maxquota := 500, created := 11 }

/-- The target domain created for `exDomain`. -/
def exTDomain : TDomain := mkDomain exDomain

/-- A legacy mailbox row matching the end-to-end example of the spec. -/
def exMailbox : PfMailbox :=
  { username := "alice@example.com"
    name := "Alice Doe"
    password := "abc123"
    local_part := "alice"
    maildir := "alice@example.com/"
    domain := "example.com"
    active := true
    quota := 1024000000
    created := 22 }

/-- A legacy database holding the example domain, an `ALL` sentinel row and a
domain that is registered in the `alias_domain` table. -/
def dbDomains : PfDatabase :=
  { dbEmpty with
    domains := [exDomain,
                { domain := "ALL", active := true, maxquota := 0, created := 0 },
                { domain := "alias.org", active := true, maxquota := 7, created := 5 }]
    alias_domains := [{ alias_domain := "alias.org", target_domain := "example.com", active := true, created := 44 }] }

/-- The final state of the successful run of `doMigration` on `dbDomains`. -/
def stDomains' : TargetState :=
  (doMigration dbDomains optsDefault stBase).toOption.getD stEmpty

/-- A target mailbox used by the recipient-partition witness. -/
def exTMailbox : Mailbox := mkMailbox exTDomain exMailbox

/-- A legacy alias-domain row whose target domain is absent from the target
store, driving `migrateDomainAliases` into its warning branch. -/
def dbOrphanAliasDomain : PfDatabase :=
  { dbEmpty with
    alias_domains := [{ alias_domain := "alias.org", target_domain := "orphan.net", active := true, created := 3 }] }

/-- The domain record whose aliases are being migrated in the `C5` failing
run (its name matches the orphan row's target, but no target `Domain` named
`orphan.net` is stored). -/
def orphanTDomain : TDomain :=
  { name := "orphan.net", enabled := true, quota := 0, dates := 0 }

/-- A legacy admin for the example domain. -/
def exAdmin : PfAdmin :=
  { username := "boss@example.com", password := "hh", active := true, modified := 55 }

/-- A legacy database for the admin-migration witness: one admin with a
credential row scoped to the example domain. -/
def dbAdmins : PfDatabase :=
  { dbEmpty with
    admins := [exAdmin]
    domain_admins := [{ username := "boss@example.com", domain := "example.com" }] }

/-- A target state already holding the example target domain. -/
def stWithDomain : TargetState :=
  { stBase with domains := [exTDomain] }

/-- The state after processing `exAdmin` against `stWithDomain`. -/
def stAdmins' : TargetState :=
  (processAdmin dbAdmins stWithDomain exAdmin).toOption.getD stEmpty

/-- A legacy database where the admin matches both an `"ALL"`-scoped and a
domain-scoped credential row. -/
def dbDupAdmins : PfDatabase :=
  { dbEmpty with
    admins := [exAdmin]
    domain_admins := [{ username := "boss@example.com", domain := "ALL" },
                      { username := "boss@example.com", domain := "example.com" }] }

/-- A self-referential legacy alias row. -/
def selfAlias : PfAlias :=
  { address := "loop@example.com", goto := "loop@example.com", domain := "example.com", active := true, created := 9 }

/-- A legacy alias row whose address has an empty local part but a usable
remainder, driving the wildcard fallback. -/
def catchallAlias : PfAlias :=
  { address := "@example.com", goto := "alice@example.com", domain := "example.com", active := true, created := 10 }

/-- The state after migrating `catchallAlias` into `stBase`. -/
def stCatchall' : TargetState :=
  (migrateOneAlias exTDomain stBase catchallAlias).toOption.getD stEmpty

/-- Options with `--rename-dirs` set but no `--mboxes-path`. -/
def optsRenameNoPath : Options :=
  { rename_dirs := true, mboxes_path := none, passwords_scheme := "crypt" }

/-! ## Lemmas about the ORM model -/

theorem getUnique_ok_filter {α : Type} {l : List α} {p : α → Bool} {x : α}
    (h : getUnique l p = .ok x) : l.filter p = [x] := by
  unfold getUnique at h
  cases hf : l.filter p with
  | nil => rw [hf] at h; exact nomatch h
  | cons y ys =>
    cases ys with
    | nil =>
      rw [hf] at h
      simp only [Except.ok.injEq] at h
      rw [h]
    | cons z zs => rw [hf] at h; exact nomatch h

theorem getUnique_ok_mem {α : Type} {l : List α} {p : α → Bool} {x : α}
    (h : getUnique l p = .ok x) : x ∈ l ∧ p x = true := by
  have hf := getUnique_ok_filter h
  have hx : x ∈ l.filter p := by rw [hf]; exact List.mem_singleton_self x
  exact ⟨(List.mem_filter.mp hx).1, (List.mem_filter.mp hx).2⟩

theorem getUnique_notFound_iff {α : Type} {l : List α} {p : α → Bool} :
    getUnique l p = .error .notFound ↔ l.filter p = [] := by
  unfold getUnique
  cases hf : l.filter p with
  | nil => simp
  | cons y ys => cases ys <;> simp

theorem getUnique_multiple_of_pair {α : Type} {l : List α} {p : α → Bool} {a b : α}
    (ha : a ∈ l) (hb : b ∈ l) (hne : a ≠ b) (hpa : p a = true) (hpb : p b = true) :
    getUnique l p = .error .multiple := by
  have ha' : a ∈ l.filter p := List.mem_filter.mpr ⟨ha, hpa⟩
  have hb' : b ∈ l.filter p := List.mem_filter.mpr ⟨hb, hpb⟩
  unfold getUnique
  cases hf : l.filter p with
  | nil => rw [hf] at ha'; exact absurd ha' (List.not_mem_nil a)
  | cons y ys =>
    cases ys with
    | nil =>
      rw [hf] at ha' hb'
      have hay : a = y := List.mem_singleton.mp ha'
      have hby : b = y := List.mem_singleton.mp hb'
      exact absurd (hay.trans hby.symm) hne
    | cons z zs => rfl

/-! ## Mailbox migration (C1, C2) -/

theorem migrateOneMailbox_users (domain : TDomain) (opts : Options) (st : TargetState)
    (mb : PfMailbox) :
    (migrateOneMailbox domain opts st mb).users =
      st.users ++ [mkUser opts.passwords_scheme mb] := by
  simp only [migrateOneMailbox]
  split <;> rfl

theorem migrateOneMailbox_mailboxes (domain : TDomain) (opts : Options) (st : TargetState)
    (mb : PfMailbox) :
    (migrateOneMailbox domain opts st mb).mailboxes =
      st.mailboxes ++ [mkMailbox domain mb] := by
  simp only [migrateOneMailbox]
  split <;> rfl

theorem migrateOneMailbox_domains (domain : TDomain) (opts : Options) (st : TargetState)
    (mb : PfMailbox) :
    (migrateOneMailbox domain opts st mb).domains = st.domains := by
  simp only [migrateOneMailbox]
  split <;> rfl

theorem foldl_mailboxes_users (domain : TDomain) (opts : Options) (l : List PfMailbox) :
    ∀ st : TargetState,
      (l.foldl (migrateOneMailbox domain opts) st).users =
        st.users ++ l.map (mkUser opts.passwords_scheme) := by
  induction l with
  | nil => intro st; simp
  | cons mb l ih =>
    intro st
    rw [List.foldl_cons, ih, migrateOneMailbox_users]
    simp

theorem foldl_mailboxes_mailboxes (domain : TDomain) (opts : Options) (l : List PfMailbox) :
    ∀ st : TargetState,
      (l.foldl (migrateOneMailbox domain opts) st).mailboxes =
        st.mailboxes ++ l.map (mkMailbox domain) := by
  induction l with
  | nil => intro st; simp
  | cons mb l ih =>
    intro st
    rw [List.foldl_cons, ih, migrateOneMailbox_mailboxes]
    simp

theorem foldl_mailboxes_domains (domain : TDomain) (opts : Options) (l : List PfMailbox) :
    ∀ st : TargetState,
      (l.foldl (migrateOneMailbox domain opts) st).domains = st.domains := by
  induction l with
  | nil => intro st; rfl
  | cons mb l ih =>
    intro st
    rw [List.foldl_cons, ih, migrateOneMailbox_domains]

theorem migrateMailboxes_users (db : PfDatabase) (domain : TDomain) (opts : Options)
    (st : TargetState) :
    (migrateMailboxes db domain opts st).users =
      st.users ++ (db.mailboxes.filter (fun mb => mb.domain == domain.name)).map
        (mkUser opts.passwords_scheme) := by
  simp only [migrateMailboxes]
  rw [foldl_mailboxes_users]

theorem migrateMailboxes_mailboxes (db : PfDatabase) (domain : TDomain) (opts : Options)
    (st : TargetState) :
    (migrateMailboxes db domain opts st).mailboxes =
      st.mailboxes ++ (db.mailboxes.filter (fun mb => mb.domain == domain.name)).map
        (mkMailbox domain) := by
  simp only [migrateMailboxes]
  rw [foldl_mailboxes_mailboxes]

theorem migrateMailboxes_domains (db : PfDatabase) (domain : TDomain) (opts : Options)
    (st : TargetState) :
    (migrateMailboxes db domain opts st).domains = st.domains := by
  simp only [migrateMailboxes]
  rw [foldl_mailboxes_domains]

/-- C1: for every legacy mailbox migrated, exactly one target `User` and one
linked target `Mailbox` are created (one of each per legacy row, appended to
the target store), the mailbox is linked to the user through the user's
username, and the user's stored password is the bracketed upper-cased
operator-supplied scheme label followed by the unmodified legacy hash. -/
theorem mailbox_migration_creates_user_and_mailbox (db : PfDatabase) (domain : TDomain)
    (opts : Options) (st : TargetState) :
    ((migrateMailboxes db domain opts st).users =
        st.users ++ (db.mailboxes.filter (fun mb => mb.domain == domain.name)).map
          (mkUser opts.passwords_scheme)) ∧
    ((migrateMailboxes db domain opts st).mailboxes =
        st.mailboxes ++ (db.mailboxes.filter (fun mb => mb.domain == domain.name)).map
          (mkMailbox domain)) ∧
    (∀ old_mb : PfMailbox,
        (mkUser opts.passwords_scheme old_mb).username = old_mb.username ∧
        (mkMailbox domain old_mb).user = (mkUser opts.passwords_scheme old_mb).username ∧
        (mkUser opts.passwords_scheme old_mb).password =
          "\x7b" ++ opts.passwords_scheme.toUpper ++ "\x7d" ++ old_mb.password) :=
  ⟨migrateMailboxes_users db domain opts st,
   migrateMailboxes_mailboxes db domain opts st,
   fun _ => ⟨rfl, rfl, rfl⟩⟩

/-- C2: the quota of every created target mailbox is the legacy quota divided
by 1024000 in integer arithmetic, set with the rule-overriding flag; a legacy
quota of 1024000000 bytes yields a target quota of 1000. -/
theorem mailbox_quota_conversion (db : PfDatabase) (domain : TDomain) (opts : Options)
    (st : TargetState) :
    ((migrateMailboxes db domain opts st).mailboxes =
        st.mailboxes ++ (db.mailboxes.filter (fun mb => mb.domain == domain.name)).map
          (mkMailbox domain)) ∧
    (∀ old_mb : PfMailbox,
        (mkMailbox domain old_mb).quota = old_mb.quota / 1024000 ∧
        (mkMailbox domain old_mb).quota_override = true) ∧
    (∀ old_mb : PfMailbox, old_mb.quota = 1024000000 →
        (mkMailbox domain old_mb).quota = 1000) := by
  refine ⟨migrateMailboxes_mailboxes db domain opts st, fun _ => ⟨rfl, rfl⟩, ?_⟩
  intro old_mb h
  simp [mkMailbox, h]

/-- Witness for C2 at the end-to-end example of the spec: the mailbox with
legacy quota 1024000000 receives target quota 1000. -/
theorem mailbox_quota_conversion_witness :
    (mkMailbox exTDomain exMailbox).quota = 1000 :=
  (mailbox_quota_conversion dbDomains exTDomain optsDefault stBase).2.2 exMailbox (by decide)

/-! ## Alias recipient partitioning (C4) -/

theorem any_eq_false_of_filter_eq_nil {α : Type} {l : List α} {p : α → Bool}
    (h : l.filter p = []) : l.any p = false := by
  cases ha : l.any p with
  | false => rfl
  | true =>
    obtain ⟨x, hx, hpx⟩ := List.any_eq_true.mp ha
    have hxf : x ∈ l.filter p := List.mem_filter.mpr ⟨hx, hpx⟩
    rw [h] at hxf
    exact absurd hxf (List.not_mem_nil x)

theorem partition_fold_spec (mbs : List Mailbox) (gotos : List String) :
    ∀ (acc : List Mailbox × List String) (ints : List Mailbox) (exts : List String),
      gotos.foldlM (partitionStep mbs) acc = .ok (ints, exts) →
      ints.map (fun mb => mb.user) =
          acc.1.map (fun mb => mb.user) ++ gotos.filter (resolvesToMailbox mbs) ∧
        exts = acc.2 ++ gotos.filter (fun g => !resolvesToMailbox mbs g) := by
  induction gotos with
  | nil =>
    intro acc ints exts h
    rw [List.foldlM_nil] at h
    cases h
    simp
  | cons g gs ih =>
    intro acc ints exts h
    rw [List.foldlM_cons] at h
    cases hg : getUnique mbs (fun mb => mb.user == g) with
    | ok mb =>
      have hmem := getUnique_ok_mem hg
      have huser : mb.user = g := eq_of_beq hmem.2
      have hres : resolvesToMailbox mbs g = true :=
        List.any_eq_true.mpr ⟨mb, hmem.1, hmem.2⟩
      have hstep : partitionStep mbs acc g = .ok (acc.1 ++ [mb], acc.2) := by
        simp [partitionStep, hg, getOk]
      rw [hstep] at h
      have h' := ih (acc.1 ++ [mb], acc.2) ints exts h
      refine ⟨?_, ?_⟩
      · rw [h'.1]
        simp [List.filter_cons, hres, huser]
      · rw [h'.2]
        simp [List.filter_cons, hres]
    | error e =>
      cases e with
      | notFound =>
        have hfil : mbs.filter (fun mb => mb.user == g) = [] :=
          getUnique_notFound_iff.mp hg
        have hres : resolvesToMailbox mbs g = false :=
          any_eq_false_of_filter_eq_nil hfil
        have hstep : partitionStep mbs acc g = .ok (acc.1, acc.2 ++ [g]) := by
          simp [partitionStep, hg, getOk]
        rw [hstep] at h
        have h' := ih (acc.1, acc.2 ++ [g]) ints exts h
        refine ⟨?_, ?_⟩
        · rw [h'.1]
          simp [List.filter_cons, hres]
        · rw [h'.2]
          simp [List.filter_cons, hres]
      | multiple =>
        have hstep : partitionStep mbs acc g = .error .multipleObjectsReturned := by
          simp [partitionStep, hg, getOk]
        rw [hstep] at h
        exact nomatch h

/-- C4: for every alias recipient list, the recipients resolving to an
existing target mailbox form (in order) the internal list, the others form
the external list as bare strings, the two lists are disjoint in that sense,
and together they are a permutation of the full split list: nothing is
duplicated or lost. -/
theorem alias_recipient_partition (mbs : List Mailbox) (gotos : List String)
    (ints : List Mailbox) (exts : List String)
    (h : partitionRecipients mbs gotos = .ok (ints, exts)) :
    ints.map (fun mb => mb.user) = gotos.filter (resolvesToMailbox mbs) ∧
    exts = gotos.filter (fun g => !resolvesToMailbox mbs g) ∧
    (ints.map (fun mb => mb.user) ++ exts).Perm gotos ∧
    (∀ g ∈ gotos,
        (resolvesToMailbox mbs g = true →
            g ∈ ints.map (fun mb => mb.user) ∧ g ∉ exts) ∧
        (resolvesToMailbox mbs g = false →
            g ∈ exts ∧ g ∉ ints.map (fun mb => mb.user))) := by
  have h' := partition_fold_spec mbs gotos ([], []) ints exts h
  have hint : ints.map (fun mb => mb.user) = gotos.filter (resolvesToMailbox mbs) := by
    rw [h'.1]; rfl
  have hext : exts = gotos.filter (fun g => !resolvesToMailbox mbs g) := by
    rw [h'.2]; rfl
  refine ⟨hint, hext, ?_, ?_⟩
  · rw [hint, hext]
    exact List.filter_append_perm (resolvesToMailbox mbs) gotos
  · intro g hgmem
    constructor
    · intro hres
      refine ⟨?_, ?_⟩
      · rw [hint]
        exact List.mem_filter.mpr ⟨hgmem, hres⟩
      · intro hcon
        rw [hext] at hcon
        have := (List.mem_filter.mp hcon).2
        rw [hres] at this
        exact nomatch this
    · intro hres
      refine ⟨?_, ?_⟩
      · rw [hext]
        refine List.mem_filter.mpr ⟨hgmem, ?_⟩
        rw [hres]
        rfl
      · intro hcon
        rw [hint] at hcon
        have := (List.mem_filter.mp hcon).2
        rw [hres] at this
        exact nomatch this

/-- Witness for C4 at the end-to-end example of the spec: the recipient list
of `info@example.com` splits into the one internal mailbox and the one
external string. -/
theorem alias_recipient_partition_witness :
    [exTMailbox].map (fun mb => mb.user) =
      (["alice@example.com", "ext@other.com"].filter
        (resolvesToMailbox [exTMailbox])) :=
  (alias_recipient_partition [exTMailbox] ["alice@example.com", "ext@other.com"]
    [exTMailbox] ["ext@other.com"] (by decide)).1

/-! ## Mailbox alias migration (C7, C8) -/

/-- C8: an alias whose address equals its own recipient string is skipped:
no target alias is created, the state is unchanged, and processing continues
with the remaining aliases. -/
theorem self_referential_alias_noop (domain : TDomain) (st : TargetState)
    (old_al : PfAlias) (rest : List PfAlias) (h : old_al.address = old_al.goto) :
    migrateOneAlias domain st old_al = .ok st ∧
    migrateAliasList domain (old_al :: rest) st = migrateAliasList domain rest st := by
  have h1 : migrateOneAlias domain st old_al = .ok st := by
    simp [migrateOneAlias, h]
  refine ⟨h1, ?_⟩
  rw [migrateAliasList, migrateAliasList, List.foldlM_cons, h1]
  rfl

/-- Witness for C8 at a concrete self-referential alias. -/
theorem self_referential_alias_noop_witness :
    migrateOneAlias exTDomain stBase selfAlias = .ok stBase :=
  (self_referential_alias_noop exTDomain stBase selfAlias [] rfl).1

/-- C7: for a non-self-referential legacy alias, if the extracted local part
is unusable (absent or empty) and the remainder is unusable too, the record
is skipped with a warning and no target alias is created; a usable local part
becomes the target alias address; an unusable local part with a usable
remainder yields the wildcard address. -/
theorem alias_address_extraction (domain : TDomain) (st : TargetState) (old_al : PfAlias)
    (lp tmp : Option String)
    (hneq : old_al.address ≠ old_al.goto)
    (hsplit : split_mailbox old_al.address = (lp, tmp)) :
    ((lp = none ∨ lp = some "") → (tmp = none ∨ tmp = some "") →
        migrateOneAlias domain st old_al =
          .ok { st with output := st.output ++
            ["Warning: skipping alias " ++ old_al.address ++
             " (cannot retrieve local part). You will need to recreate it manually."] }) ∧
    (∀ s : String, lp = some s → s ≠ "" →
        ∀ st' : TargetState, migrateOneAlias domain st old_al = .ok st' →
          st'.aliases.map (fun a => a.address) =
            st.aliases.map (fun a => a.address) ++ [s]) ∧
    ((lp = none ∨ lp = some "") → ¬(tmp = none ∨ tmp = some "") →
        ∀ st' : TargetState, migrateOneAlias domain st old_al = .ok st' →
          st'.aliases.map (fun a => a.address) =
            st.aliases.map (fun a => a.address) ++ ["*"]) := by
  have hbeq : (old_al.address == old_al.goto) = false := beq_eq_false_iff_ne.mpr hneq
  refine ⟨?_, ?_, ?_⟩
  · intro hlp htmp
    have hlpb : (lp == none || lp == some "") = true := by
      rcases hlp with h | h <;> simp [h]
    have htmpb : (tmp == none || tmp == some "") = true := by
      rcases htmp with h | h <;> simp [h]
    have haddr : aliasNewAddress old_al.address = none := by
      simp [aliasNewAddress, hsplit, hlpb, htmpb]
    simp [migrateOneAlias, hbeq, haddr]
  · intro s hlp hs st' hok
    have hlpb : (lp == none || lp == some "") = false := by
      subst hlp
      simp [hs]
    have haddr : aliasNewAddress old_al.address = some s := by
      simp [aliasNewAddress, hsplit, hlp]
      intro hc
      exact absurd hc hs
    simp only [migrateOneAlias, hbeq, Bool.false_eq_true, if_false, haddr] at hok
    cases hp : partitionRecipients st.mailboxes (pySplit old_al.goto ',') with
    | error e =>
      rw [hp] at hok
      exact nomatch hok
    | ok p =>
      rw [hp] at hok
      cases hok
      simp
  · intro hlp htmp st' hok
    have hlpb : (lp == none || lp == some "") = true := by
      rcases hlp with h | h <;> simp [h]
    have htmpb : (tmp == none || tmp == some "") = false := by
      push_neg at htmp
      cases tmp with
      | none => exact absurd rfl htmp.1
      | some t =>
        have : t ≠ "" := by
          intro hc
          exact htmp.2 (by rw [hc])
        simp [this]
    have haddr : aliasNewAddress old_al.address = some "*" := by
      simp [aliasNewAddress, hsplit, hlpb, htmpb]
    simp only [migrateOneAlias, hbeq, Bool.false_eq_true, if_false, haddr] at hok
    cases hp : partitionRecipients st.mailboxes (pySplit old_al.goto ',') with
    | error e =>
      rw [hp] at hok
      exact nomatch hok
    | ok p =>
      rw [hp] at hok
      cases hok
      simp

/-- Witness for C7 at a catch-all alias: the empty local part with a usable
remainder yields a target alias with the wildcard address. -/
theorem alias_address_extraction_witness :
    stCatchall'.aliases.map (fun a => a.address) =
      stBase.aliases.map (fun a => a.address) ++ ["*"] :=
  (alias_address_extraction exTDomain stBase catchallAlias (some "") (some "example.com")
      (by decide) (by decide)).2.2 (Or.inr rfl) (by decide) stCatchall' (by decide)

/-! ## Domain alias migration (C5) -/

/-- C5 (code bug): with an alias-domain row whose target domain is absent
from the target store, `_migrate_domain_aliases` does not merely warn and
skip: its warning `print` applies a format string holding two `%s`
placeholders to the single value `old_da.target_domain`, which raises an
uncaught `TypeError` and aborts the run (no record is created, but neither
does processing continue). -/
theorem domain_alias_missing_target_raises :
    migrateDomainAliases dbOrphanAliasDomain orphanTDomain stBase = .error .typeError ∧
    (∀ old_da : PfAliasDomain,
        pyFormatSS "Warning: target domain " " does not exists, not creating alias domain "
          "" [old_da.target_domain] = .error .typeError) := by
  exact ⟨by decide, fun _ => rfl⟩

/-! ## Domain migration (C3): the `domains` component of the state -/

theorem migrateOneAlias_domains {domain : TDomain} {st st' : TargetState} {old_al : PfAlias}
    (h : migrateOneAlias domain st old_al = .ok st') : st'.domains = st.domains := by
  unfold migrateOneAlias at h
  split at h
  · cases h; rfl
  · cases haddr : aliasNewAddress old_al.address with
    | none => rw [haddr] at h; cases h; rfl
    | some addr =>
      rw [haddr] at h
      cases hp : partitionRecipients st.mailboxes (pySplit old_al.goto ',') with
      | error e => rw [hp] at h; exact nomatch h
      | ok p => rw [hp] at h; cases h; rfl

theorem migrateAliasList_domains {domain : TDomain} (l : List PfAlias) :
    ∀ {st st' : TargetState}, migrateAliasList domain l st = .ok st' →
      st'.domains = st.domains := by
  induction l with
  | nil =>
    intro st st' h
    rw [migrateAliasList, List.foldlM_nil] at h
    cases h
    rfl
  | cons a l ih =>
    intro st st' h
    rw [migrateAliasList, List.foldlM_cons] at h
    cases ha : migrateOneAlias domain st a with
    | error e => rw [ha] at h; exact nomatch h
    | ok st1 =>
      rw [ha] at h
      have h' : migrateAliasList domain l st1 = .ok st' := h
      rw [ih h', migrateOneAlias_domains ha]

theorem migrateMailboxAliases_domains {db : PfDatabase} {domain : TDomain}
    {st st' : TargetState} (h : migrateMailboxAliases db domain st = .ok st') :
    st'.domains = st.domains := by
  have h' : migrateAliasList domain (db.aliases.filter (fun a => a.domain == domain.name))
      { st with output := st.output ++ ["\tMigrating mailbox aliases"] } = .ok st' := h
  have h2 := migrateAliasList_domains _ h'
  exact h2

theorem migrateOneDomainAlias_domains {st st' : TargetState} {old_da : PfAliasDomain}
    (h : migrateOneDomainAlias st old_da = .ok st') : st'.domains = st.domains := by
  unfold migrateOneDomainAlias at h
  split at h
  · exact nomatch h
  · cases h; rfl
  · exact nomatch h

theorem foldDomainAliases_domains (l : List PfAliasDomain) :
    ∀ {st st' : TargetState}, l.foldlM migrateOneDomainAlias st = .ok st' →
      st'.domains = st.domains := by
  induction l with
  | nil =>
    intro st st' h
    rw [List.foldlM_nil] at h
    cases h
    rfl
  | cons a l ih =>
    intro st st' h
    rw [List.foldlM_cons] at h
    cases ha : migrateOneDomainAlias st a with
    | error e => rw [ha] at h; exact nomatch h
    | ok st1 =>
      rw [ha] at h
      have h' : List.foldlM migrateOneDomainAlias st1 l = .ok st' := h
      rw [ih h', migrateOneDomainAlias_domains ha]

theorem migrateDomainAliases_domains {db : PfDatabase} {domain : TDomain}
    {st st' : TargetState} (h : migrateDomainAliases db domain st = .ok st') :
    st'.domains = st.domains := by
  have h' : (db.alias_domains.filter (fun ad => ad.target_domain == domain.name)).foldlM
      migrateOneDomainAlias
      { st with output := st.output ++ ["\tMigrating domain aliases"] } = .ok st' := h
  have h2 := foldDomainAliases_domains _ h'
  exact h2

theorem adminApplyPrivilege_domains (st : TargetState) (creds : PfDomainAdmins)
    (domain : TDomain) (old_admin : PfAdmin) (user? : Option User) :
    (adminApplyPrivilege st creds domain old_admin user?).domains = st.domains := by
  unfold adminApplyPrivilege saveUser
  cases user? <;> cases hall : creds.domain == "ALL" <;> simp [hall]

theorem processAdmin_domains {db : PfDatabase} {st st' : TargetState} {old_admin : PfAdmin}
    (h : processAdmin db st old_admin = .ok st') : st'.domains = st.domains := by
  simp only [processAdmin] at h
  cases hc : getOk (getUnique db.domain_admins (credsQuery old_admin)) with
  | error e => rw [hc] at h; exact nomatch h
  | ok creds? =>
    rw [hc] at h
    cases creds? with
    | none => cases h; rfl
    | some creds =>
      cases hd : getOk (getUnique st.domains
          (fun d => some d.name == (split_mailbox old_admin.username).2)) with
      | error e => rw [hd] at h; exact nomatch h
      | ok domain? =>
        rw [hd] at h
        cases domain? with
        | none => cases h; rfl
        | some domain =>
          cases hu : getOk (getUnique st.users (fun u => u.username == old_admin.username)) with
          | error e => rw [hu] at h; exact nomatch h
          | ok user? =>
            rw [hu] at h
            cases h
            exact adminApplyPrivilege_domains st creds domain old_admin user?

theorem foldAdmins_domains {db : PfDatabase} (l : List PfAdmin) :
    ∀ {st st' : TargetState}, l.foldlM (processAdmin db) st = .ok st' →
      st'.domains = st.domains := by
  induction l with
  | nil =>
    intro st st' h
    rw [List.foldlM_nil] at h
    cases h
    rfl
  | cons a l ih =>
    intro st st' h
    rw [List.foldlM_cons] at h
    cases ha : processAdmin db st a with
    | error e => rw [ha] at h; exact nomatch h
    | ok st1 =>
      rw [ha] at h
      have h' : List.foldlM (processAdmin db) st1 l = .ok st' := h
      rw [ih h', processAdmin_domains ha]

theorem migrateAdmins_domains {db : PfDatabase} {st st' : TargetState}
    (h : migrateAdmins db st = .ok st') : st'.domains = st.domains := by
  simp only [migrateAdmins] at h
  cases hg : raiseGet (getUnique st.groups (fun g => g == "DomainAdmins")) with
  | error e => rw [hg] at h; exact nomatch h
  | ok g =>
    rw [hg] at h
    have h' : List.foldlM (processAdmin db)
        { st with output := st.output ++ ["Migrating administrators"] } db.admins = .ok st' := h
    have h2 := foldAdmins_domains _ h'
    exact h2

theorem migrateDomain_domains {db : PfDatabase} {old_dom : PfDomain} {opts : Options}
    {st st' : TargetState} (h : migrateDomain db old_dom opts st = .ok st') :
    st'.domains = st.domains ++ [mkDomain old_dom] := by
  simp only [migrateDomain] at h
  cases hma : migrateMailboxAliases db (mkDomain old_dom)
      (migrateMailboxes db (mkDomain old_dom) opts
        { st with output := st.output ++ ["Migrating domain " ++ old_dom.domain], domains := st.domains ++ [mkDomain old_dom] }) with
  | error e => rw [hma] at h; exact nomatch h
  | ok st4 =>
    rw [hma] at h
    have h' : migrateDomainAliases db (mkDomain old_dom) st4 = .ok st' := h
    rw [migrateDomainAliases_domains h', migrateMailboxAliases_domains hma,
      migrateMailboxes_domains]

theorem migrateDomainStep_domains {db : PfDatabase} {opts : Options}
    {st st' : TargetState} {d : PfDomain}
    (h : migrateDomainStep db opts st d = .ok st') :
    st'.domains = st.domains ++ (if survivingDomain db d then [mkDomain d] else []) := by
  unfold migrateDomainStep at h
  cases hall : d.domain == "ALL" with
  | true =>
    rw [if_pos hall] at h
    cases h
    have hs : survivingDomain db d = false := by
      simp [survivingDomain, bne, hall]
    rw [hs]
    simp
  | false =>
    rw [if_neg (by simp [hall])] at h
    cases hq : getUnique db.alias_domains (fun ad => ad.alias_domain == d.domain) with
    | ok x =>
      rw [show getOk (getUnique db.alias_domains (fun ad => ad.alias_domain == d.domain)) =
          .ok (some x) by rw [hq]; rfl] at h
      cases h
      have hmem := getUnique_ok_mem hq
      have hany : db.alias_domains.any (fun ad => ad.alias_domain == d.domain) = true :=
        List.any_eq_true.mpr ⟨x, hmem.1, hmem.2⟩
      have hs : survivingDomain db d = false := by
        simp [survivingDomain, hany]
      rw [hs]
      simp
    | error e =>
      cases e with
      | multiple =>
        rw [show getOk (getUnique db.alias_domains (fun ad => ad.alias_domain == d.domain)) =
            .error .multipleObjectsReturned by rw [hq]; rfl] at h
        exact nomatch h
      | notFound =>
        rw [show getOk (getUnique db.alias_domains (fun ad => ad.alias_domain == d.domain)) =
            .ok none by rw [hq]; rfl] at h
        cases hm : migrateDomain db d opts st with
        | error e => rw [hm] at h; exact nomatch h
        | ok st1 =>
          rw [hm] at h
          have h' : migrateAdmins db st1 = .ok st' := h
          have hany : db.alias_domains.any (fun ad => ad.alias_domain == d.domain) = false :=
            any_eq_false_of_filter_eq_nil (getUnique_notFound_iff.mp hq)
          have hs : survivingDomain db d = true := by
            simp [survivingDomain, bne, hall, hany]
          rw [migrateAdmins_domains h', migrateDomain_domains hm, hs]
          simp

theorem foldDomains_domains {db : PfDatabase} {opts : Options} (l : List PfDomain) :
    ∀ {st st' : TargetState}, l.foldlM (migrateDomainStep db opts) st = .ok st' →
      st'.domains = st.domains ++ (l.filter (survivingDomain db)).map mkDomain := by
  induction l with
  | nil =>
    intro st st' h
    rw [List.foldlM_nil] at h
    cases h
    simp
  | cons d l ih =>
    intro st st' h
    rw [List.foldlM_cons] at h
    cases hs : migrateDomainStep db opts st d with
    | error e => rw [hs] at h; exact nomatch h
    | ok st1 =>
      rw [hs] at h
      have h' : List.foldlM (migrateDomainStep db opts) st1 l = .ok st' := h
      rw [ih h', migrateDomainStep_domains hs]
      cases hsd : survivingDomain db d <;> simp [List.filter_cons, hsd]

/-- C3: when the run succeeds, the target domains created are exactly one per
legacy domain record that is neither the sentinel `"ALL"` nor registered in
the legacy alias-domain table, in order, and each created target domain
carries the legacy record's name, active flag and maxquota. -/
theorem domain_migration_filter (db : PfDatabase) (opts : Options) (st st' : TargetState)
    (h : doMigration db opts st = .ok st') :
    st'.domains = st.domains ++ (db.domains.filter (survivingDomain db)).map mkDomain ∧
    (∀ d : PfDomain, survivingDomain db d = true ↔
        (d.domain ≠ "ALL" ∧ ∀ ad ∈ db.alias_domains, ad.alias_domain ≠ d.domain)) ∧
    (∀ od : PfDomain, (mkDomain od).name = od.domain ∧ (mkDomain od).enabled = od.active ∧
        (mkDomain od).quota = od.maxquota) := by
  refine ⟨?_, ?_, fun _ => ⟨rfl, rfl, rfl⟩⟩
  · unfold doMigration at h
    cases hc : raiseGet (getUnique st.users (fun u => u.username == "admin")) with
    | error e => rw [hc] at h; exact nomatch h
    | ok u =>
      rw [hc] at h
      have h' : List.foldlM (migrateDomainStep db opts) st db.domains = .ok st' := h
      exact foldDomains_domains _ h'
  · intro d
    simp [survivingDomain, List.any_eq_true]

/-- Witness for C3: on a legacy database holding the example domain, the
sentinel `"ALL"` and a domain registered as an alias, the successful run
creates exactly the example target domain. -/
theorem domain_migration_filter_witness :
    stDomains'.domains = stBase.domains ++
      (dbDomains.domains.filter (survivingDomain dbDomains)).map mkDomain :=
  (domain_migration_filter dbDomains optsDefault stBase stDomains' (by decide)).1

/-! ## Administrator migration (C6, C10) -/

theorem getOk_some_getUnique {α : Type} {l : List α} {p : α → Bool} {x : α}
    (h : getOk (getUnique l p) = .ok (some x)) : getUnique l p = .ok x := by
  cases hg : getUnique l p with
  | ok y => rw [hg] at h; simp only [getOk, Except.ok.injEq, Option.some.injEq] at h; rw [h]
  | error e =>
    cases e <;> (rw [hg] at h; simp [getOk] at h)

theorem getOk_none_getUnique {α : Type} {l : List α} {p : α → Bool}
    (h : getOk (getUnique l p) = .ok none) : getUnique l p = .error .notFound := by
  cases hg : getUnique l p with
  | ok y => rw [hg] at h; simp [getOk] at h
  | error e =>
    cases e with
    | notFound => rfl
    | multiple => rw [hg] at h; simp [getOk] at h

theorem pushNew_mem {α : Type} [DecidableEq α] (l : List α) (x : α) : x ∈ pushNew l x := by
  unfold pushNew
  split
  · assumption
  · exact List.mem_append_right l (List.mem_singleton_self x)

theorem saveUser_dadmins (st : TargetState) (user : User) :
    (saveUser st user).dadmins = st.dadmins := rfl

theorem mem_saveUser_of_mem {st : TargetState} {user v : User}
    (hv : v ∈ st.users) (hname : v.username = user.username) :
    user ∈ (saveUser st user).users := by
  show user ∈ st.users.map (fun u => if u.username == user.username then user else u)
  refine List.mem_map.mpr ⟨v, hv, ?_⟩
  rw [if_pos (beq_iff_eq.mpr hname)]

theorem saveUser_matching {st : TargetState} {user u : User}
    (hu : u ∈ (saveUser st user).users) (hname : u.username = user.username) :
    u = user := by
  have hu' : u ∈ st.users.map (fun v => if v.username == user.username then user else v) := hu
  obtain ⟨v, hv, hfv⟩ := List.mem_map.mp hu'
  by_cases hb : (v.username == user.username) = true
  · rw [if_pos hb] at hfv
    exact hfv.symm
  · rw [if_neg hb] at hfv
    exfalso
    apply hb
    exact beq_iff_eq.mpr (by rw [hfv, hname])

theorem adminApplyPrivilege_all_some (st : TargetState) (creds : PfDomainAdmins) (d : TDomain)
    (a : PfAdmin) (u0 : User) (hall : (creds.domain == "ALL") = true) :
    adminApplyPrivilege st creds d a (some u0) =
      saveUser st { u0 with date_joined := a.modified, is_superuser := true } := by
  simp [adminApplyPrivilege, hall]

theorem adminApplyPrivilege_all_none (st : TargetState) (creds : PfDomainAdmins) (d : TDomain)
    (a : PfAdmin) (hall : (creds.domain == "ALL") = true) :
    adminApplyPrivilege st creds d a none =
      saveUser { st with users := st.users ++ [freshAdminUser a] }
        { freshAdminUser a with date_joined := a.modified, is_superuser := true } := by
  simp [adminApplyPrivilege, hall]

theorem adminApplyPrivilege_dom_some (st : TargetState) (creds : PfDomainAdmins) (d : TDomain)
    (a : PfAdmin) (u0 : User) (hall : (creds.domain == "ALL") = false) :
    adminApplyPrivilege st creds d a (some u0) =
      saveUser { st with dadmins := pushNew st.dadmins (d.name, a.username) }
        { u0 with date_joined := a.modified, groups := pushNew u0.groups "DomainAdmins" } := by
  simp [adminApplyPrivilege, hall]

theorem adminApplyPrivilege_dom_none (st : TargetState) (creds : PfDomainAdmins) (d : TDomain)
    (a : PfAdmin) (hall : (creds.domain == "ALL") = false) :
    adminApplyPrivilege st creds d a none =
      saveUser { st with users := st.users ++ [freshAdminUser a], dadmins := pushNew st.dadmins (d.name, a.username) }
        { freshAdminUser a with date_joined := a.modified, groups := pushNew (freshAdminUser a).groups "DomainAdmins" } := by
  simp [adminApplyPrivilege, hall]

/-- C6: for an admin whose matched credential row is scoped to `"ALL"`, the
stored user is marked superuser, no domain-admin registration is added and
the group memberships are untouched; for an admin whose matched credential
row is scoped to one specific domain, the stored user joins the fixed
`DomainAdmins` group, exactly the one resolved domain gains this admin, and
the superuser flag is left at its prior value (false for a fresh user). -/
theorem admin_privilege_assignment (db : PfDatabase) (st : TargetState) (old_admin : PfAdmin)
    (creds : PfDomainAdmins) (d : TDomain) (st' : TargetState)
    (hc : getUnique db.domain_admins (credsQuery old_admin) = .ok creds)
    (hd : getUnique st.domains
        (fun x => some x.name == (split_mailbox old_admin.username).2) = .ok d)
    (hok : processAdmin db st old_admin = .ok st') :
    (creds.domain = "ALL" →
        st'.dadmins = st.dadmins ∧
        (∃ u ∈ st'.users, u.username = old_admin.username ∧ u.is_superuser = true) ∧
        (∀ u ∈ st'.users, u.username = old_admin.username →
            u.is_superuser = true ∧ u.groups = priorGroups st old_admin.username)) ∧
    (creds.domain ≠ "ALL" →
        st'.dadmins = pushNew st.dadmins (d.name, old_admin.username) ∧
        (∃ u ∈ st'.users, u.username = old_admin.username ∧
            u.groups = pushNew (priorGroups st old_admin.username) "DomainAdmins" ∧
            u.is_superuser = priorSuperuser st old_admin.username) ∧
        (∀ u ∈ st'.users, u.username = old_admin.username →
            "DomainAdmins" ∈ u.groups ∧
            u.is_superuser = priorSuperuser st old_admin.username)) := by
  simp only [processAdmin] at hok
  rw [show getOk (getUnique db.domain_admins (credsQuery old_admin)) = .ok (some creds) from
    by rw [hc]; rfl] at hok
  rw [show getOk (getUnique st.domains
      (fun x => some x.name == (split_mailbox old_admin.username).2)) = .ok (some d) from
    by rw [hd]; rfl] at hok
  cases hu : getOk (getUnique st.users (fun u => u.username == old_admin.username)) with
  | error e => rw [hu] at hok; exact nomatch hok
  | ok user? =>
    rw [hu] at hok
    cases hok
    cases user? with
    | some u0 =>
      have hg := getOk_some_getUnique hu
      have hmem := getUnique_ok_mem hg
      have hu0name : u0.username = old_admin.username := eq_of_beq hmem.2
      have hprior : priorGroups st old_admin.username = u0.groups := by
        unfold priorGroups
        rw [hg]
      have hpriorS : priorSuperuser st old_admin.username = u0.is_superuser := by
        unfold priorSuperuser
        rw [hg]
      constructor
      · intro hall
        have hballs : (creds.domain == "ALL") = true := beq_iff_eq.mpr hall
        rw [adminApplyPrivilege_all_some st creds d old_admin u0 hballs]
        refine ⟨rfl, ?_, ?_⟩
        · exact ⟨{ u0 with date_joined := old_admin.modified, is_superuser := true },
            mem_saveUser_of_mem hmem.1 rfl, hu0name, rfl⟩
        · intro u humem huname
          have hequ : u = { u0 with date_joined := old_admin.modified, is_superuser := true } :=
            saveUser_matching humem (by rw [huname, ← hu0name])
          exact ⟨by rw [hequ], by rw [hequ, hprior]⟩
      · intro hall
        have hballs : (creds.domain == "ALL") = false := beq_eq_false_iff_ne.mpr hall
        rw [adminApplyPrivilege_dom_some st creds d old_admin u0 hballs]
        refine ⟨rfl, ?_, ?_⟩
        · exact ⟨{ u0 with date_joined := old_admin.modified, groups := pushNew u0.groups "DomainAdmins" },
            mem_saveUser_of_mem hmem.1 rfl, hu0name, by rw [hprior], by rw [hpriorS]⟩
        · intro u humem huname
          have hequ : u = { u0 with date_joined := old_admin.modified, groups := pushNew u0.groups "DomainAdmins" } :=
            saveUser_matching humem (by rw [huname, ← hu0name])
          refine ⟨?_, by rw [hequ, hpriorS]⟩
          rw [hequ]
          exact pushNew_mem u0.groups "DomainAdmins"
    | none =>
      have hg := getOk_none_getUnique hu
      have hprior : priorGroups st old_admin.username = [] := by
        unfold priorGroups
        rw [hg]
      have hpriorS : priorSuperuser st old_admin.username = false := by
        unfold priorSuperuser
        rw [hg]
      constructor
      · intro hall
        have hballs : (creds.domain == "ALL") = true := beq_iff_eq.mpr hall
        rw [adminApplyPrivilege_all_none st creds d old_admin hballs]
        refine ⟨rfl, ?_, ?_⟩
        · exact ⟨{ freshAdminUser old_admin with date_joined := old_admin.modified, is_superuser := true },
            mem_saveUser_of_mem
              (List.mem_append_right st.users (List.mem_singleton_self (freshAdminUser old_admin)))
              rfl,
            rfl, rfl⟩
        · intro u humem huname
          have hequ : u = { freshAdminUser old_admin with date_joined := old_admin.modified, is_superuser := true } :=
            saveUser_matching humem huname
          exact ⟨by rw [hequ], by rw [hequ, hprior]; rfl⟩
      · intro hall
        have hballs : (creds.domain == "ALL") = false := beq_eq_false_iff_ne.mpr hall
        rw [adminApplyPrivilege_dom_none st creds d old_admin hballs]
        refine ⟨rfl, ?_, ?_⟩
        · exact ⟨{ freshAdminUser old_admin with date_joined := old_admin.modified, groups := pushNew (freshAdminUser old_admin).groups "DomainAdmins" },
            mem_saveUser_of_mem
              (List.mem_append_right st.users (List.mem_singleton_self (freshAdminUser old_admin)))
              rfl,
            rfl, by rw [hprior]; rfl, by rw [hpriorS]; rfl⟩
        · intro u humem huname
          have hequ : u = { freshAdminUser old_admin with date_joined := old_admin.modified, groups := pushNew (freshAdminUser old_admin).groups "DomainAdmins" } :=
            saveUser_matching humem huname
          refine ⟨?_, by rw [hequ, hpriorS]; rfl⟩
          rw [hequ]
          exact pushNew_mem (freshAdminUser old_admin).groups "DomainAdmins"

/-- Witness for C6 at a concrete domain-scoped admin: the example domain
gains the admin as a registered domain admin. -/
theorem admin_privilege_assignment_witness :
    stAdmins'.dadmins = pushNew stWithDomain.dadmins ("example.com", "boss@example.com") :=
  ((admin_privilege_assignment dbAdmins stWithDomain exAdmin
      { username := "boss@example.com", domain := "example.com" } exTDomain stAdmins'
      (by decide) (by decide) (by decide)).2 (by decide)).1

theorem foldlM_isOk_false_of_mem {σ α ε : Type} (f : σ → α → Except ε σ) (x : α)
    (hf : ∀ acc, isOk (f acc x) = false) :
    ∀ (l : List α), x ∈ l → ∀ init : σ, isOk (l.foldlM f init) = false := by
  intro l
  induction l with
  | nil => intro hx; exact absurd hx (List.not_mem_nil x)
  | cons a l ih =>
    intro hx init
    rw [List.foldlM_cons]
    rcases List.mem_cons.mp hx with hax | hxl
    · subst hax
      cases hfa : f init x with
      | error e => rfl
      | ok s1 =>
        have hfx := hf init
        rw [hfa] at hfx
        exact nomatch hfx
    · cases hfa : f init a with
      | error e => rfl
      | ok s1 =>
        exact ih hxl s1

/-- C10: when the legacy domain-admin table matches both an `"ALL"`-scoped
row and a row scoped to the admin's own domain, the single credential
`.get()` returns multiple objects: processing that admin raises the uncaught
exception (it is neither processed nor skipped with a warning), and the
administrator migration as a whole fails for any state whose admin table
contains this admin. -/
theorem duplicate_admin_credentials_abort (db : PfDatabase) (st : TargetState)
    (old_admin : PfAdmin) (r1 r2 : PfDomainAdmins)
    (h1 : r1 ∈ db.domain_admins) (h2 : r2 ∈ db.domain_admins)
    (hu1 : r1.username = old_admin.username) (hd1 : r1.domain = "ALL")
    (hu2 : r2.username = old_admin.username)
    (hd2 : some r2.domain = (split_mailbox old_admin.username).2)
    (hne : r2.domain ≠ "ALL") :
    processAdmin db st old_admin = .error .multipleObjectsReturned ∧
    (old_admin ∈ db.admins → isOk (migrateAdmins db st) = false) := by
  have hr12 : r1 ≠ r2 := by
    intro hc
    rw [hc] at hd1
    exact hne hd1
  have hp1 : credsQuery old_admin r1 = true := by
    simp [credsQuery, hu1, hd1]
  have hp2 : credsQuery old_admin r2 = true := by
    simp [credsQuery, hu2, hd2]
  have hget : getUnique db.domain_admins (credsQuery old_admin) = .error .multiple :=
    getUnique_multiple_of_pair h1 h2 hr12 hp1 hp2
  have hpa : ∀ acc : TargetState, processAdmin db acc old_admin = .error .multipleObjectsReturned := by
    intro acc
    simp only [processAdmin]
    rw [show getOk (getUnique db.domain_admins (credsQuery old_admin)) =
        .error .multipleObjectsReturned from by rw [hget]; rfl]
    rfl
  refine ⟨hpa st, ?_⟩
  intro hmem
  have hf : ∀ acc : TargetState, isOk (processAdmin db acc old_admin) = false := by
    intro acc
    rw [hpa acc]
    rfl
  simp only [migrateAdmins]
  cases hg : raiseGet (getUnique st.groups (fun g => g == "DomainAdmins")) with
  | error e => rfl
  | ok g =>
    exact foldlM_isOk_false_of_mem (processAdmin db) old_admin hf db.admins hmem
      { st with output := st.output ++ ["Migrating administrators"] }

/-- Witness for C10 at a concrete admin matched by both an `"ALL"` row and an
`example.com` row. -/
theorem duplicate_admin_credentials_abort_witness :
    processAdmin dbDupAdmins stWithDomain exAdmin = .error .multipleObjectsReturned :=
  (duplicate_admin_credentials_abort dbDupAdmins stWithDomain exAdmin
    { username := "boss@example.com", domain := "ALL" }
    { username := "boss@example.com", domain := "example.com" }
    (by decide) (by decide) rfl rfl rfl (by decide) (by decide)).1

/-! ## Command exit behaviour (C9) -/

/-- Counterexample to C9 as stated: with `--rename-dirs` off and an empty
target store, the creator lookup raises an uncaught exception and the command
exits non-zero even though the flag precondition is satisfied, so a non-zero
exit does not imply the flag misuse. -/
theorem exit_nonzero_without_flag_misuse :
    ¬(optsDefault.rename_dirs = true ∧ optsDefault.mboxes_path = none) ∧
    exitCode (handle optsDefault dbEmpty stEmpty) ≠ 0 := by
  decide

/-- C9 (amended): the command exits non-zero with the error message when
`--rename-dirs` is given without `--mboxes-path`; otherwise it runs the
migration and exits zero exactly when no uncaught exception aborts the run —
records skipped with warnings never affect the exit status, and a completed
migration reports its final state. -/
theorem handle_exit_behavior (opts : Options) (db : PfDatabase) (st : TargetState) :
    (opts.rename_dirs = true → opts.mboxes_path = none →
        handle opts db st = .exited 1 "Error: you must provide the --mboxes-path option") ∧
    (¬(opts.rename_dirs = true ∧ opts.mboxes_path = none) →
        ((exitCode (handle opts db st) = 0) ↔ isOk (doMigration db opts st) = true) ∧
        (∀ st' : TargetState, doMigration db opts st = .ok st' →
            handle opts db st = .completed st')) := by
  constructor
  · intro h1 h2
    have hguard : (opts.rename_dirs && opts.mboxes_path.isNone) = true := by
      rw [h1, h2]
      rfl
    simp [handle, hguard]
  · intro hn
    have hguard : (opts.rename_dirs && opts.mboxes_path.isNone) = false := by
      cases hr : opts.rename_dirs with
      | false => rfl
      | true =>
        cases hp : opts.mboxes_path with
        | none => exact absurd ⟨hr, hp⟩ hn
        | some p => simp [hp]
    constructor
    · simp only [handle, hguard, Bool.false_eq_true, if_false]
      cases hm : doMigration db opts st with
      | ok s => simp [exitCode, isOk]
      | error e => simp [exitCode, isOk]
    · intro st' hm
      simp [handle, hguard, hm]

/-- Witness for the amended C9: `--rename-dirs` without `--mboxes-path`
triggers the explicit error exit. -/
theorem handle_exit_behavior_witness :
    handle optsRenameNoPath dbEmpty stEmpty =
      .exited 1 "Error: you must provide the --mboxes-path option" :=
  (handle_exit_behavior optsRenameNoPath dbEmpty stEmpty).1 rfl rfl

end PfxMigrate
